import Mathlib

/-!
# Verification of the `search-tools` workspace exploration core

Shallow embedding of `src/agents/tools/search-tools.ts`: the glob-to-matcher
compiler (`matchesPattern`), the recursive directory walker (`walk`), the
path-containment guard, the grep argument-vector construction, the exit-code
classification of the external search process, and the output truncation
shared by `list_files` and `search`.

Strings are modelled with Lean `String`; paths are POSIX (`path.sep = "/"`).
The filesystem is modelled as a tree of named entries, and the external
`grep` process as an abstract function from the invocation record to an
outcome.
-/

open scoped List

namespace SearchTools

/-! ## Character-level path splitting

`String.split(path.sep)` / `stdout.split("\n")` are modelled by a structural
splitter over the character list (JS `split` with a one-character separator:
the separators are dropped, empty pieces are kept). -/

/-- Split a character list on a separator character, JS `String.split` style:
`splitChar '/' "a//b" = ["a", "", "b"]`. -/
def splitChar (sep : Char) : List Char → List (List Char)
  | [] => [[]]
  | c :: cs =>
    if c = sep then [] :: splitChar sep cs
    else
      match splitChar sep cs with
      | s :: ss => (c :: s) :: ss
      | [] => [[c]]

/-- Join character-list segments with a separator character (JS `Array.join`). -/
def joinChar (sep : Char) : List (List Char) → List Char
  | [] => []
  | [s] => s
  | s :: ss => s ++ sep :: joinChar sep ss

/-- The segments of a path string (split on `/`). -/
def segs (s : String) : List String := (splitChar '/' s.data).map List.asString

/-- `filePath.split(path.sep).join("/")` from `matchesPattern` (identity on
POSIX, where `path.sep` is `"/"`). -/
def normalizedOf (s : String) : String := (joinChar '/' (splitChar '/' s.data)).asString

/-- JS `String.prototype.startsWith`, as a prefix test on the character data. -/
def jsStartsWith (s pre : String) : Bool := pre.data.isPrefixOf s.data

/-! ## The glob-to-regex compiler

`matchesPattern` escapes regex metacharacters and then performs three global
replacements, in order: `** → .*`, `* → [^/]*`, `? → .`.  Because the second
replacement runs over the output of the first, the `*` inside the inserted
`.*` is itself rewritten, so `**` nets out to `.[^/]*`.  The compiled regex is
a plain sequence of atoms (every metacharacter of the pattern was escaped into
a literal, and `*`/`?` were consumed by the substitutions), represented here as
a token list. -/

inductive GTok where
  /-- an escaped character of the pattern: matches exactly itself -/
  | lit (c : Char)
  /-- regex `.`: matches exactly one arbitrary character -/
  | anyOne
  /-- regex `[^/]*`: matches any run of non-separator characters -/
  | starNS
  /-- regex `.*`: matches any run of characters (appended for trailing-`/` patterns) -/
  | dotStar
  deriving DecidableEq

/-- Tokens of the regex produced by the escape + three replacements of
`matchesPattern`.  `**` first becomes `.*`, whose `*` is then rewritten to
`[^/]*` by the following global replacement, hence `anyOne :: starNS`. -/
def globToks : List Char → List GTok
  | [] => []
  | '*' :: '*' :: rest => .anyOne :: .starNS :: globToks rest
  | '*' :: rest => .starNS :: globToks rest
  | '?' :: rest => .anyOne :: globToks rest
  | c :: rest => .lit c :: globToks rest

/-- The suffixes of `cs` reachable by consuming a (possibly empty) run of
non-`/` characters from the front: the candidate continuation points of
`[^/]*`. -/
def nonSlashSuffixes : List Char → List (List Char)
  | [] => [[]]
  | c :: cs => (c :: cs) :: (if c = '/' then [] else nonSlashSuffixes cs)

/-- Anchored matching of a compiled token sequence against a character list
(semantics of `new RegExp("^" ++ body ++ "$").test`; the trailing-`/` form
`^body.*` is represented by `body ++ [dotStar]`). -/
def matchToks : List GTok → List Char → Bool
  | [], ds => ds.isEmpty
  | .lit _ :: _, [] => false
  | .lit c :: ts, d :: ds => c = d && matchToks ts ds
  | .anyOne :: _, [] => false
  | .anyOne :: ts, _ :: ds => matchToks ts ds
  | .starNS :: ts, ds => (nonSlashSuffixes ds).any fun ds' => matchToks ts ds'
  | .dotStar :: ts, ds => ds.tails.any fun ds' => matchToks ts ds'

/-- Whether a pattern string ends in `/` (the "directory matching" form). -/
def endsSlash (p : String) : Bool := p.data.getLast? = some '/'

/-- `matchesPattern(filePath, basename, patterns)` from the source: any-match
over the pattern list; a pattern with a non-trailing slash is tested against
the normalized relative path, any other pattern against the basename; a
trailing-`/` pattern compiles to `^body.*` (start anchor only), every other
pattern to `^body$`. -/
def matchesPattern (filePath basename : String) (patterns : List String) : Bool :=
  if patterns.isEmpty then false
  else
    let normalizedPath := normalizedOf filePath
    patterns.any fun pattern =>
      let hasSlash := pattern.data.contains '/' && !endsSlash pattern
      let matchTarget := if hasSlash then normalizedPath else basename
      if endsSlash pattern then
        matchToks (globToks pattern.data ++ [.dotStar]) matchTarget.data
      else
        matchToks (globToks pattern.data) matchTarget.data

/-! ## The filesystem model and the directory walker -/

/-- A directory tree: every entry has a basename; directories carry their
child entries in filesystem enumeration order (the order `fs.readdir`
happens to yield). -/
inductive FSTree where
  | file (name : String)
  | dir (name : String) (entries : List FSTree)

/-- The basename of an entry (`entry.name` of a `Dirent`). -/
def FSTree.name : FSTree → String
  | .file n => n
  | .dir n _ => n

/-- Join path segments back with `/` (the reassembly step of Node's
normalizer). -/
def joinSegs (parts : List String) : String :=
  (joinChar '/' (parts.map String.data)).asString

/-- One step of Node `path.normalize`'s segment processing: empty and `.`
segments are dropped; `..` pops the previous segment when one exists and is
not itself `..`; otherwise `..` is kept for relative paths (which may climb
above their start) and discarded for absolute ones. -/
def normStep (isAbs : Bool) (acc : List String) (seg : String) : List String :=
  if seg = "" || seg = "." then acc
  else if seg = ".." then
    match acc.getLast? with
    | some l => if l = ".." then acc ++ [".."] else acc.dropLast
    | none => if isAbs then [] else [".."]
  else acc ++ [seg]

/-- Node `path.normalize` (POSIX): process the segments, keep a leading `/`
for absolute paths and a trailing `/` when the input had one, and render an
empty result as `"."` (`"./"` with a trailing separator, `"/"` when
absolute). -/
def normalizePath (p : String) : String :=
  let isAbs := jsStartsWith p "/"
  let hasTrail := p.data.getLast? = some '/'
  let stack := (segs p).foldl (normStep isAbs) []
  let res := joinSegs stack
  if res = "" then
    (if isAbs then "/" else if hasTrail then "./" else ".")
  else
    (if isAbs then "/" ++ res else res) ++ (if hasTrail then "/" else "")

/-- Node `path.join(a, b)` (POSIX), as used by the walker for
`path.join(currentRelative, entry.name)`: the non-empty parts are joined with
`/` and the result is normalized; with no non-empty parts the result is
`"."`. -/
def joinPath (a b : String) : String :=
  if a = "" then (if b = "" then "." else normalizePath b)
  else if b = "" then normalizePath a
  else normalizePath (a ++ "/" ++ b)

/-- The recursive walk of `list_files` over an entry list: per entry, compute
its path relative to the listing root, skip it entirely when an ignore
pattern matches (pruning — an ignored directory is never descended into),
otherwise recurse into directories (when `recursive`), record directories
with a trailing `/` (when not `recursive`), and record files.  Results appear
in depth-first enumeration order, exactly as the source pushes them. -/
def walkList (recursive : Bool) (ign : List String) : List FSTree → String → List String
  | [], _ => []
  | .file n :: es, rel =>
    let entryRelative := joinPath rel n
    (if matchesPattern entryRelative n ign then [] else [entryRelative])
      ++ walkList recursive ign es rel
  | .dir n subs :: es, rel =>
    let entryRelative := joinPath rel n
    (if matchesPattern entryRelative n ign then []
     else if recursive then walkList recursive ign subs entryRelative
     else [entryRelative ++ "/"])
      ++ walkList recursive ign es rel
termination_by es _ => sizeOf es
decreasing_by all_goals simp <;> omega

/-- The walk on a single entry; `walkList` is its pointwise concatenation. -/
def walkOne (recursive : Bool) (ign : List String) (rel : String) : FSTree → List String
  | .file n =>
    let entryRelative := joinPath rel n
    if matchesPattern entryRelative n ign then [] else [entryRelative]
  | .dir n subs =>
    let entryRelative := joinPath rel n
    if matchesPattern entryRelative n ign then []
    else if recursive then walkList recursive ign subs entryRelative
    else [entryRelative ++ "/"]

/-! ## Sorting and output truncation -/

/-- `files.sort()`: lexicographic sort of the collected paths (JS default
string sort), modelled as an insertion sort under `String`'s linear order. -/
def sortStrings (l : List String) : List String := l.insertionSort (· ≤ ·)

/-- The `list_files` output stage on the (sorted) path list: join with
newlines; above 1000 entries keep the first 1000 and append the omitted
count; an empty joined output renders as `"(empty directory)"`. -/
def renderListOutput (files : List String) : String :=
  let output := String.intercalate "\n" files
  if files.length > 1000 then
    String.intercalate "\n" (files.take 1000)
      ++ "\n\n... and " ++ toString (files.length - 1000) ++ " more files."
  else if output = "" then "(empty directory)" else output

/-- `stdout.split("\n").filter(Boolean)`: the result lines of `search`
(JS `filter(Boolean)` drops exactly the empty strings). -/
def searchLines (stdout : String) : List String :=
  ((splitChar '\n' stdout.data).map List.asString).filter (fun l => l != "")

/-- The `search` output stage on captured stdout: split into lines, drop empty
ones (`filter(Boolean)`); above 500 lines keep the first 500 and append the
omitted count; an empty joined output renders as `"No matches found."`. -/
def renderSearchOutput (stdout : String) : String :=
  let lines := searchLines stdout
  let output := String.intercalate "\n" lines
  if lines.length > 500 then
    String.intercalate "\n" (lines.take 500)
      ++ "\n\n... and " ++ toString (lines.length - 500) ++ " more matches."
  else if output = "" then "No matches found." else output

/-! ## Path resolution and the containment guard -/

/-- Left-to-right normalization of path segments (`.` and empty segments are
dropped, `..` pops the previous segment, `..` above the root is discarded), as
performed by Node's `path.resolve` on an absolute base. -/
def normSegs (parts : List String) : List String :=
  parts.foldl
    (fun acc seg =>
      if seg = "" || seg = "." then acc
      else if seg = ".." then acc.dropLast
      else acc ++ [seg])
    []

/-- `path.resolve(root, relativePath)` for an absolute `root`: an absolute
`relativePath` wins outright, otherwise the two are concatenated; the result
is the normalized absolute path. -/
def resolvePath (root rel : String) : String :=
  let parts := if jsStartsWith rel "/" then segs rel else segs root ++ segs rel
  "/" ++ String.intercalate "/" (normSegs parts)

/-- The containment guard of both tools: `targetDir.startsWith(root)`, a
literal string-prefix comparison of the resolved absolute path against the
workspace root. -/
def insideRootGuard (root rel : String) : Bool :=
  jsStartsWith (resolvePath root rel) root

/-- Modelled from the spec (§3 invariants, §8): a resolution "escapes the
workspace root" when the resolved absolute path neither equals the root nor
lies beneath it.  This is the spec's wording of escape, kept separate from the
source's literal prefix guard so the two can be compared. -/
def specEscapesRoot (root rel : String) : Bool :=
  !(resolvePath root rel = root || jsStartsWith (resolvePath root rel) (root ++ "/"))

/-! ## Caller parameters, errors, and the external process -/

/-- An untyped JS parameter value, as far as the tools inspect one. -/
inductive JsVal where
  | bool (b : Bool)
  | str (s : String)
  | num (n : Int)
  | null
  deriving DecidableEq

/-- `(params.caseSensitive as boolean) === true`: strict equality with the
boolean `true`; absent, `false`, and non-boolean values all fail it. -/
def jsStrictTrue : Option JsVal → Bool
  | some (.bool true) => true
  | _ => false

/-- `(params.recursive as boolean) !== false`: anything but the boolean
`false` counts as recursive. -/
def jsNotFalse : Option JsVal → Bool
  | some (.bool false) => false
  | _ => true

/-- The caller-visible failure of a tool invocation: a `ToolInputError` with
its message, or an unexpected error propagated unchanged (carrying the
original exit code, stderr and message of a failed process). -/
inductive ToolError where
  | toolInput (msg : String)
  | execFail (code : Option Int) (stderr : String) (message : String)
  deriving DecidableEq

/-- One `execFile` invocation: the command, its argument vector (passed as
discrete arguments, never through a shell), and the working directory. -/
structure ExecCall where
  cmd : String
  args : List String
  cwd : String
  deriving DecidableEq

/-- The outcome of the external process: resolved with captured stdout, or
rejected with an exit code (`none` for signal-style terminations), captured
stderr and an error message. -/
inductive ExecResult where
  | ok (stdout : String)
  | err (code : Option Int) (stderr : String) (message : String)
  deriving DecidableEq

/-- The default ignore/exclude list shared by both tools. -/
def defaultIgnore : List String := [".git", "node_modules", "dist", "coverage"]

/-! ## `list_files` -/

/-- The `execute` of `list_files`.  `fsys` models the filesystem as a map from
an absolute path to the tree rooted there (`none` for ENOENT).  The guard
runs before any filesystem access; then the target is checked to be a
directory, walked (seeded with the relative path, or `""` for `"."`), sorted,
and truncated. -/
def listFilesExecute (fsys : String → Option FSTree) (root : String)
    (path? : Option String) (recursive? : Option JsVal)
    (ignore? : Option (List String)) : Except ToolError String :=
  let relativePath := path?.getD "."
  let recursive := jsNotFalse recursive?
  let ignore := ignore?.getD defaultIgnore
  let targetDir := resolvePath root relativePath
  if !insideRootGuard root relativePath then
    .error (.toolInput ("Access denied: " ++ relativePath ++ " is outside workspace root."))
  else
    match fsys targetDir with
    | none => .error (.toolInput ("Directory not found: " ++ relativePath))
    | some (.file _) => .error (.toolInput (relativePath ++ " is not a directory."))
    | some (.dir _ entries) =>
      let files := walkList recursive ignore entries (if relativePath = "." then "" else relativePath)
      .ok (renderListOutput (sortStrings files))

/-! ## `search` -/

/-- The grep argument vector built by `search`, in push order: `-rIn`, `-i`
unless case-sensitive, `-E`, one `--include` per include pattern, `--exclude`
and `--exclude-dir` per exclude pattern, the search pattern as the value of a
dedicated `-e` flag, and the target relative path last. -/
def buildGrepArgs (pattern relativePath : String) (include? : Option (List String))
    (exclude : List String) (caseSensitive : Bool) : List String :=
  ["-rIn"]
    ++ (if !caseSensitive then ["-i"] else [])
    ++ ["-E"]
    ++ (match include? with
        | some inc => if inc.length > 0 then inc.flatMap (fun i => ["--include", i]) else []
        | none => [])
    ++ (if exclude.length > 0 then exclude.flatMap (fun e => ["--exclude", e, "--exclude-dir", e])
        else [])
    ++ ["-e", pattern]
    ++ [relativePath]

/-- The flag portion of the grep argument vector: everything before the
`-e pattern` pair and the trailing path.  It does not depend on the search
pattern. -/
def grepArgsBase (include? : Option (List String)) (exclude : List String)
    (caseSensitive : Bool) : List String :=
  ["-rIn"]
    ++ (if !caseSensitive then ["-i"] else [])
    ++ ["-E"]
    ++ (match include? with
        | some inc => if inc.length > 0 then inc.flatMap (fun i => ["--include", i]) else []
        | none => [])
    ++ (if exclude.length > 0 then exclude.flatMap (fun e => ["--exclude", e, "--exclude-dir", e])
        else [])

/-- The `execute` of `search`.  `exec` models `execFileAsync("grep", args,
{cwd: root})`.  The guard runs before the process is spawned; the outcome is
classified by exit code: success renders stdout (truncated), exit 1 is the
normal "No matches found." result, exit 2 raises a `ToolInputError` carrying
the captured stderr (falling back to the error message when stderr is empty),
and anything else is propagated unchanged. -/
def searchExecute (exec : ExecCall → ExecResult) (root : String) (pattern : String)
    (path? : Option String) (include? : Option (List String))
    (exclude? : Option (List String)) (caseSensitive? : Option JsVal) :
    Except ToolError String :=
  let relativePath := path?.getD "."
  let exclude := exclude?.getD defaultIgnore
  let caseSensitive := jsStrictTrue caseSensitive?
  if !insideRootGuard root relativePath then
    .error (.toolInput ("Access denied: " ++ relativePath ++ " is outside workspace root."))
  else
    let grepArgs := buildGrepArgs pattern relativePath include? exclude caseSensitive
    match exec { cmd := "grep", args := grepArgs, cwd := root } with
    | .ok stdout => .ok (renderSearchOutput stdout)
    | .err code stderr message =>
      if code = some 1 then .ok "No matches found."
      else if code = some 2 then
        .error (.toolInput ("Grep error: " ++ (if stderr != "" then stderr else message)))
      else .error (.execFail code stderr message)

/-! ## Further definitions used by the statements -/

/-- Modelled from the spec (§4.1, step 3): the intended glob substitutions —
`**` → "match any sequence including separators" (`.*`), `*` → "match any
sequence excluding the separator" (`[^/]*`), `?` → "match exactly one
character" (`.`).  Kept separate from `globToks` (the source's net effect) so
the two compilers can be compared. -/
def specGlobToks : List Char → List GTok
  | [] => []
  | '*' :: '*' :: rest => .dotStar :: specGlobToks rest
  | '*' :: rest => .starNS :: specGlobToks rest
  | '?' :: rest => .anyOne :: specGlobToks rest
  | c :: rest => .lit c :: specGlobToks rest

/-- `matchesPattern` as the spec describes it: identical target selection and
anchoring, but with the spec's `**` substitution. -/
def specMatchesPattern (filePath basename : String) (patterns : List String) : Bool :=
  if patterns.isEmpty then false
  else
    let normalizedPath := normalizedOf filePath
    patterns.any fun pattern =>
      let hasSlash := pattern.data.contains '/' && !endsSlash pattern
      let matchTarget := if hasSlash then normalizedPath else basename
      if endsSlash pattern then
        matchToks (specGlobToks pattern.data ++ [.dotStar]) matchTarget.data
      else
        matchToks (specGlobToks pattern.data) matchTarget.data

/-- The single `execFile` invocation `search` performs once the guard has
passed, as a function of the caller's parameters. -/
def grepCall (root pattern : String) (path? : Option String)
    (include? exclude? : Option (List String)) (caseSensitive? : Option JsVal) : ExecCall :=
  { cmd := "grep",
    args := buildGrepArgs pattern (path?.getD ".") include? (exclude?.getD defaultIgnore)
      (jsStrictTrue caseSensitive?),
    cwd := root }

/-- A basename `fs.readdir` can actually return: non-empty, not one of the
dot entries `.`/`..` (which `readdir` never yields), and free of the path
separator. -/
def cleanName (n : String) : Bool :=
  n != "" && n != "." && n != ".." && !n.data.contains '/'

/-- Well-formedness of a tree's entry names: every basename, at every level,
is one a real directory can hold. -/
def namesOk : List FSTree → Bool
  | [] => true
  | .file n :: es => cleanName n && namesOk es
  | .dir n subs :: es => cleanName n && namesOk subs && namesOk es
termination_by es => sizeOf es
decreasing_by all_goals simp <;> omega

/-- A normalized non-empty relative path: what `path.join` treats as plain
concatenation material (no empty, `.` or `..` segments, hence no leading or
trailing separator). -/
def canonicalRel (p : String) : Bool :=
  p != "" && (segs p).all fun s => s != "" && s != "." && s != ".."

/-- Order on entries by basename, used to canonicalize enumeration order. -/
def nameLE (a b : FSTree) : Prop := a.name ≤ b.name

instance : DecidableRel nameLE := fun a b => inferInstanceAs (Decidable (a.name ≤ b.name))

/-- Canonical form of a tree: entries sorted by basename at every level.  Two
trees are the same directory contents seen in different `readdir` enumeration
orders exactly when their canonical forms coincide (for real directories,
whose basenames are distinct per level). -/
def canonTree : FSTree → FSTree
  | .file n => .file n
  | .dir n es => .dir n (List.insertionSort nameLE (es.attach.map fun x => canonTree x.1))
termination_by t => sizeOf t
decreasing_by
  have := List.sizeOf_lt_of_mem x.2
  simp at this ⊢
  omega

/-- Canonical form of an enumeration: each entry canonicalized, then sorted by
basename. -/
def canonList (es : List FSTree) : List FSTree :=
  List.insertionSort nameLE (es.map canonTree)

/-! ## Sanity checks on concrete inputs (the scenarios of the test suite,
and Node `path.join` behaviour pinned on its edge cases) -/

example : joinPath "" "x" = "x" := by decide
example : joinPath "" "" = "." := by decide
example : joinPath "." "x" = "x" := by decide
example : joinPath "./src" "f" = "src/f" := by decide
example : joinPath "src/" "f" = "src/f" := by decide
example : joinPath "a/../b" "f" = "b/f" := by decide
example : joinPath ".." "f" = "../f" := by decide
example : joinPath "a/../.." "f" = "../f" := by decide
example : joinPath "/ws/src" "f" = "/ws/src/f" := by decide
example : joinPath "a" "b" = "a/b" := by decide
example : joinPath "src" "index.ts" = "src/index.ts" := by decide

example : matchesPattern "src/node_modules" "node_modules" ["node_modules"] = true := by decide
example : matchesPattern "src/test" "test" ["src/test"] = true := by decide
example : matchesPattern "other/src/test" "test" ["src/test"] = false := by decide
example : matchesPattern "a.ts" "a.ts" ["*.ts"] = true := by decide
example : matchesPattern "a.ts" "a.ts" [] = false := by decide

example :
    walkList true ["node_modules"]
      [.dir "src" [.file "index.ts", .dir "node_modules" [.file "x.js"]],
       .file "README.md"] "" = ["src/index.ts", "README.md"] := by
  simp +decide [walkList]

example : renderListOutput [] = "(empty directory)" := by decide
example : renderListOutput ["a", "b"] = "a\nb" := by decide
example : renderSearchOutput "f:1:x\nf:2:y\n" = "f:1:x\nf:2:y" := by decide
example : renderSearchOutput "" = "No matches found." := by decide

example : resolvePath "/ws" "." = "/ws" := by decide
example : resolvePath "/ws" "src" = "/ws/src" := by decide
example : resolvePath "/ws" "../etc" = "/etc" := by decide
example : resolvePath "/ws" "../ws-other" = "/ws-other" := by decide
example : resolvePath "/ws" "a/../b" = "/ws/b" := by decide

example :
    searchExecute (fun _ => .err (some 1) "" "") "/ws" "hello" none none none none
      = .ok "No matches found." := by rfl
example :
    listFilesExecute (fun _ => none) "/ws" (some "../etc") none none
      = .error (.toolInput "Access denied: ../etc is outside workspace root.") := by rfl


/-! ## Lemmas about the walker -/

theorem walkList_cons (r : Bool) (ign : List String) (e : FSTree) (es : List FSTree)
    (rel : String) :
    walkList r ign (e :: es) rel = walkOne r ign rel e ++ walkList r ign es rel := by
  cases e <;> simp [walkList, walkOne]

theorem walkList_eq_flatMap (r : Bool) (ign : List String) (es : List FSTree) (rel : String) :
    walkList r ign es rel = es.flatMap (walkOne r ign rel) := by
  induction es with
  | nil => simp [walkList]
  | cons e es ih => rw [walkList_cons, ih, List.flatMap_cons]

/-! ## C1 — the containment guard -/

/-- C1 (amended): whenever the resolved target lacks the workspace root as a
literal string prefix, both `list_files` and `search` fail with the
access-denied error before any filesystem or process work — the conclusion
holds for every filesystem `fsys` and every process behaviour `exec`. -/
theorem c1_access_denied_without_root_text_anchor (fsys : String → Option FSTree)
    (exec : ExecCall → ExecResult) (root p : String) (recursive? : Option JsVal)
    (ignore? : Option (List String)) (pattern : String)
    (include? exclude? : Option (List String)) (caseSensitive? : Option JsVal)
    (h : jsStartsWith (resolvePath root p) root = false) :
    listFilesExecute fsys root (some p) recursive? ignore?
        = .error (.toolInput ("Access denied: " ++ p ++ " is outside workspace root."))
    ∧ searchExecute exec root pattern (some p) include? exclude? caseSensitive?
        = .error (.toolInput ("Access denied: " ++ p ++ " is outside workspace root.")) := by
  constructor <;>
    simp [listFilesExecute, searchExecute, insideRootGuard, h]

/-- Witness for `c1_access_denied_without_root_text_anchor` at `root = "/ws"`, `p = "../x"`
(which resolves to `"/x"`). -/
theorem c1_access_denied_without_root_text_anchor_witness :
    jsStartsWith (resolvePath "/ws" "../x") "/ws" = false
    ∧ listFilesExecute (fun _ => none) "/ws" (some "../x") none none
        = .error (.toolInput "Access denied: ../x is outside workspace root.")
    ∧ searchExecute (fun _ => .ok "") "/ws" "hello" (some "../x") none none none
        = .error (.toolInput "Access denied: ../x is outside workspace root.") := by
  have h := c1_access_denied_without_root_text_anchor (fun _ => none) (fun _ => .ok "") "/ws" "../x"
    none none "hello" none none none (by decide)
  exact ⟨by decide, h.1, h.2⟩

/-- C1 counterexample: `root = "/ws"`, `p = "../ws-other"` resolves to
`"/ws-other"`, which escapes the workspace root (it is neither the root nor
beneath it), yet the literal string-prefix guard accepts it — so neither
operation raises access denied: `list_files` proceeds to the filesystem
(reporting "Directory not found" on an empty filesystem) and `search`
proceeds to spawn the process. -/
theorem c1_counterexample :
    specEscapesRoot "/ws" "../ws-other" = true
    ∧ insideRootGuard "/ws" "../ws-other" = true
    ∧ listFilesExecute (fun _ => none) "/ws" (some "../ws-other") none none
        = .error (.toolInput "Directory not found: ../ws-other")
    ∧ searchExecute (fun _ => .err (some 1) "" "") "/ws" "x" (some "../ws-other") none none none
        = .ok "No matches found." := by
  exact ⟨by decide, by decide, by rfl, by rfl⟩

/-! ## C2 — trailing-slash ignore patterns -/

/-- C2 evaluated on the code: the trailing-slash pattern `"X/"` is matched
against the basename (its slash is only terminal, so `hasSlash` is false),
but its compiled regex `^X/.*` demands a literal `/`, which no basename
contains — so `list_files` with ignore `["X/"]` does *not* exclude the
directory `X`: the walk returns `"X/f"`.  The exact-path half of the claim
does hold: ignore `["a/b"]` prunes `a/b` but not `other/a/b`. -/
theorem c2_trailing_slash_pattern_never_matches :
    walkList true ["X/"] [.dir "X" [.file "f"]] "" = ["X/f"]
    ∧ matchesPattern "X" "X" ["X/"] = false
    ∧ walkList true ["a/b"] [.dir "a" [.file "b"], .dir "other" [.dir "a" [.file "b"]]] ""
        = ["other/a/b"] := by
  refine ⟨by simp +decide [walkList], by decide, by simp +decide [walkList]⟩

/-! ## C3 — the `**` substitution -/

/-- C3 evaluated on the code: the chained replacements compile `**` to
`.[^/]*` (the `*` of the inserted `.*` is rewritten by the following `*`
replacement), so the matched portion cannot span more than one separator:
`"a/**/b"` fails to match `"a/x/y/b"`, while the spec's intended compiler
(`**` → `.*`) matches it. -/
theorem c3_doublestar_does_not_cross_separators :
    globToks "a/**/b".data
        = [.lit 'a', .lit '/', .anyOne, .starNS, .lit '/', .lit 'b']
    ∧ matchesPattern "a/x/y/b" "b" ["a/**/b"] = false
    ∧ specMatchesPattern "a/x/y/b" "b" ["a/**/b"] = true := by
  exact ⟨by decide, by decide, by decide⟩

/-! ## Lemmas: splitting, glob self-matching, path segments -/

theorem splitChar_ne_nil (sep : Char) (l : List Char) : splitChar sep l ≠ [] := by
  cases l with
  | nil => simp [splitChar]
  | cons c cs =>
    by_cases h : c = sep
    · simp [splitChar, h]
    · simp only [splitChar, if_neg h]
      cases hs : splitChar sep cs <;> simp

theorem splitChar_cons_self (sep : Char) (l : List Char) :
    splitChar sep (sep :: l) = [] :: splitChar sep l := by
  simp [splitChar]

theorem splitChar_cons_ne (sep c : Char) (l : List Char) (h : c ≠ sep) :
    splitChar sep (c :: l)
      = match splitChar sep l with
        | s :: ss => (c :: s) :: ss
        | [] => [[c]] := by
  simp [splitChar, h]

theorem splitChar_append (sep : Char) (a b : List Char) :
    splitChar sep (a ++ sep :: b) = splitChar sep a ++ splitChar sep b := by
  induction a with
  | nil => simp [splitChar]
  | cons c cs ih =>
    by_cases h : c = sep
    · subst h
      rw [List.cons_append, splitChar_cons_self, splitChar_cons_self, ih]
      rfl
    · obtain ⟨s, ss, hs⟩ : ∃ s ss, splitChar sep cs = s :: ss := by
        cases hs : splitChar sep cs with
        | nil => exact absurd hs (splitChar_ne_nil sep cs)
        | cons s ss => exact ⟨s, ss, rfl⟩
      rw [List.cons_append, splitChar_cons_ne sep c _ h, splitChar_cons_ne sep c _ h, ih, hs]
      simp

theorem splitChar_no_sep (sep : Char) (l : List Char) (h : ∀ c ∈ l, c ≠ sep) :
    splitChar sep l = [l] := by
  induction l with
  | nil => rfl
  | cons c cs ih =>
    have hc : c ≠ sep := h c (by simp)
    simp only [splitChar, if_neg hc]
    rw [ih (fun x hx => h x (by simp [hx]))]

theorem globToks_star (rest : List Char) (hno : ∀ (r : List Char), rest = '*' :: r → False) :
    globToks ('*' :: rest) = .starNS :: globToks rest := by
  rw [globToks.eq_def]
  split
  · rename_i heq; simp at heq
  · rename_i r heq
    injection heq with h1 h2
    exact absurd h2 (fun h => hno r h)
  · rename_i r hcond heq
    injection heq with h1 h2
    rw [h2]
  · rename_i r heq
    injection heq with h1 h2
    exact absurd h1 (by decide)
  · rename_i c r hno2 hstar hq heq
    injection heq with h1 h2
    exact absurd h1.symm hstar

theorem globToks_default (c : Char) (rest : List Char) (hstar : c ≠ '*') (hq : c ≠ '?') :
    globToks (c :: rest) = .lit c :: globToks rest := by
  rw [globToks.eq_def]
  split
  · rename_i heq; simp at heq
  · rename_i r heq
    injection heq with h1 h2
    exact absurd h1 hstar
  · rename_i r hcond heq
    injection heq with h1 h2
    exact absurd h1 hstar
  · rename_i r heq
    injection heq with h1 h2
    exact absurd h1 hq
  · rename_i c' r hno2 hstar' hq' heq
    injection heq with h1 h2
    rw [h1, h2]

theorem self_mem_nonSlashSuffixes (l : List Char) : l ∈ nonSlashSuffixes l := by
  cases l <;> simp [nonSlashSuffixes]

/-- A slash-free pattern fragment matches itself literally: prepending the
tokens of `cs` to any continuation matches `cs` followed by any continuation
text the continuation tokens match. -/
theorem matchToks_glob_self (cs : List Char) :
    (∀ c ∈ cs, c ≠ '/') → ∀ (ts : List GTok) (ds : List Char),
      matchToks ts ds = true → matchToks (globToks cs ++ ts) (cs ++ ds) = true := by
  induction cs using globToks.induct with
  | case1 =>
    intro _ ts ds hts
    simpa [globToks] using hts
  | case2 rest ih =>
    intro h ts ds hts
    have ih' := ih (fun c hc => h c (by simp [hc])) ts ds hts
    show matchToks (globToks ('*' :: '*' :: rest) ++ ts) ('*' :: '*' :: rest ++ ds) = true
    have hg : globToks ('*' :: '*' :: rest) = .anyOne :: .starNS :: globToks rest := rfl
    rw [hg]
    show (nonSlashSuffixes ('*' :: (rest ++ ds))).any
      (fun z => matchToks (globToks rest ++ ts) z) = true
    refine List.any_eq_true.mpr ⟨rest ++ ds, ?_, ih'⟩
    simp [nonSlashSuffixes, self_mem_nonSlashSuffixes]
  | case3 rest hno ih =>
    intro h ts ds hts
    have ih' := ih (fun c hc => h c (by simp [hc])) ts ds hts
    rw [globToks_star rest (fun r hr => hno r hr), List.cons_append]
    show (nonSlashSuffixes ('*' :: (rest ++ ds))).any
      (fun z => matchToks (globToks rest ++ ts) z) = true
    refine List.any_eq_true.mpr ⟨rest ++ ds, ?_, ih'⟩
    simp [nonSlashSuffixes, self_mem_nonSlashSuffixes]
  | case4 rest ih =>
    intro h ts ds hts
    have ih' := ih (fun c hc => h c (by simp [hc])) ts ds hts
    have hg : globToks ('?' :: rest) = .anyOne :: globToks rest := rfl
    rw [hg, List.cons_append]
    exact ih'
  | case5 c rest hno hstar hq ih =>
    intro h ts ds hts
    have ih' := ih (fun x hx => h x (by simp [hx])) ts ds hts
    rw [List.cons_append, globToks_default c rest (fun hc => hstar hc) (fun hc => hq hc),
      List.cons_append]
    show (decide (c = c) && matchToks (globToks rest ++ ts) (rest ++ ds)) = true
    simp [ih']

theorem contains_slash_iff (l : List Char) :
    l.contains '/' = false ↔ ∀ c ∈ l, c ≠ '/' := by
  constructor
  · intro h c hc hEq
    subst hEq
    have : l.elem '/' = true := List.elem_iff.mpr hc
    rw [show l.contains '/' = l.elem '/' from rfl, this] at h
    cases h
  · intro h
    cases hc : l.contains '/'
    · rfl
    · exact absurd (List.mem_of_elem_eq_true hc) (fun hm => h _ hm rfl)

/-- A slash-free pattern matches its own text as basename, whatever the full
path is. -/
theorem matchesPattern_self (fp X : String) (hsl : ∀ c ∈ X.data, c ≠ '/') :
    matchesPattern fp X [X] = true := by
  have hends : endsSlash X = false := by
    unfold endsSlash
    cases hgl : X.data.getLast? with
    | none => rfl
    | some c =>
      have hc : c ≠ '/' := hsl c (List.mem_of_getLast?_eq_some hgl)
      simp [hc]
  have hm : matchToks (globToks X.data) X.data = true := by
    have := matchToks_glob_self X.data hsl [] [] rfl
    simpa using this
  have hcont : X.data.contains '/' = false := (contains_slash_iff X.data).mpr hsl
  have hnotmem : '/' ∉ X.data := fun h => hsl '/' h rfl
  unfold matchesPattern
  simp [hends, hcont, hm, hnotmem]

theorem segs_no_slash (s : String) (h : ∀ c ∈ s.data, c ≠ '/') : segs s = [s] := by
  unfold segs
  rw [splitChar_no_sep '/' s.data h]
  simp [List.asString]

theorem string_ne_empty_of_data {s : String} (h : s.data ≠ []) : s ≠ "" :=
  fun hEq => h (by rw [hEq])

theorem joinChar_cons_cons (sep : Char) (s t : List Char) (ss : List (List Char)) :
    joinChar sep (s :: t :: ss) = s ++ sep :: joinChar sep (t :: ss) := rfl

/-- Splitting on a separator and joining back with it is the identity. -/
theorem joinChar_splitChar (sep : Char) (l : List Char) :
    joinChar sep (splitChar sep l) = l := by
  induction l with
  | nil => rfl
  | cons c cs ih =>
    obtain ⟨s, ss, hs⟩ : ∃ s ss, splitChar sep cs = s :: ss := by
      cases hs : splitChar sep cs with
      | nil => exact absurd hs (splitChar_ne_nil sep cs)
      | cons s ss => exact ⟨s, ss, rfl⟩
    by_cases h : c = sep
    · subst h
      rw [splitChar_cons_self, hs, joinChar_cons_cons, ← hs, ih]
      rfl
    · rw [splitChar_cons_ne sep c cs h, hs]
      cases ss with
      | nil =>
        have h3 := ih
        rw [hs] at h3
        show (c :: s : List Char) = c :: cs
        rw [show joinChar sep [s] = s from rfl] at h3
        rw [h3]
      | cons t ts =>
        rw [joinChar_cons_cons]
        have h3 := ih
        rw [hs, joinChar_cons_cons] at h3
        show (c :: s) ++ sep :: joinChar sep (t :: ts) = c :: cs
        rw [← h3]
        simp

theorem joinSegs_segs (p : String) : joinSegs (segs p) = p := by
  unfold joinSegs segs
  rw [List.map_map]
  have hmap : (splitChar '/' p.data).map (String.data ∘ List.asString)
      = splitChar '/' p.data := by
    have hid : (String.data ∘ List.asString) = id := rfl
    rw [hid, List.map_id]
  rw [hmap, joinChar_splitChar]
  rfl

theorem foldl_normStep_clean (isAbs : Bool) :
    ∀ (parts : List String) (acc : List String),
      (∀ s ∈ parts, s ≠ "" ∧ s ≠ "." ∧ s ≠ "..") →
      parts.foldl (normStep isAbs) acc = acc ++ parts := by
  intro parts
  induction parts with
  | nil => intro acc _; simp
  | cons s ss ih =>
    intro acc h
    have hs := h s (by simp)
    simp only [List.foldl_cons]
    rw [show normStep isAbs acc s = acc ++ [s] from by
      simp [normStep, hs.1, hs.2.1, hs.2.2]]
    rw [ih _ (fun t ht => h t (by simp [ht]))]
    simp

/-- A path with clean segments does not begin with the separator. -/
theorem clean_not_abs {p : String} (h : ∀ s ∈ segs p, s ≠ "") :
    jsStartsWith p "/" = false := by
  cases habs : jsStartsWith p "/"
  · rfl
  · exfalso
    simp only [jsStartsWith, List.isPrefixOf_iff_prefix] at habs
    obtain ⟨t, ht⟩ := habs
    have hseg : "" ∈ segs p := by
      unfold segs
      rw [← ht]
      show "" ∈ (splitChar '/' ('/' :: t)).map List.asString
      rw [splitChar_cons_self]
      simp [List.asString]
    exact h "" hseg rfl

/-- A path with clean segments does not end with the separator. -/
theorem clean_no_trail {p : String} (h : ∀ s ∈ segs p, s ≠ "") :
    ¬ p.data.getLast? = some '/' := by
  intro hl
  obtain ⟨ys, hys⟩ := List.getLast?_eq_some_iff.1 hl
  have hseg : "" ∈ segs p := by
    unfold segs
    rw [hys, show ys ++ ['/'] = ys ++ '/' :: [] from rfl, splitChar_append]
    simp [splitChar, List.asString]
  exact h "" hseg rfl

/-- Node's normalization fixes paths that are already normalized: non-empty
with no empty, `.` or `..` segments. -/
theorem normalizePath_clean (p : String) (hp : p ≠ "")
    (h : ∀ s ∈ segs p, s ≠ "" ∧ s ≠ "." ∧ s ≠ "..") : normalizePath p = p := by
  have habs : jsStartsWith p "/" = false := clean_not_abs (fun s hs => (h s hs).1)
  have htrail : ¬ p.data.getLast? = some '/' := clean_no_trail (fun s hs => (h s hs).1)
  simp only [normalizePath, habs]
  rw [foldl_normStep_clean false (segs p) [] h, List.nil_append, joinSegs_segs]
  simp [hp, htrail]

theorem canonicalRel_iff (p : String) :
    canonicalRel p = true ↔ p ≠ "" ∧ ∀ s ∈ segs p, s ≠ "" ∧ s ≠ "." ∧ s ≠ ".." := by
  simp [canonicalRel, List.all_eq_true, and_assoc]

theorem cleanName_iff (n : String) :
    cleanName n = true ↔ n ≠ "" ∧ n ≠ "." ∧ n ≠ ".." ∧ (∀ c ∈ n.data, c ≠ '/') := by
  constructor
  · intro h
    simp only [cleanName, Bool.and_eq_true, bne_iff_ne, Bool.not_eq_true'] at h
    exact ⟨h.1.1.1, h.1.1.2, h.1.2, (contains_slash_iff n.data).mp h.2⟩
  · intro ⟨h1, h2, h3, h4⟩
    simp only [cleanName, Bool.and_eq_true, bne_iff_ne, Bool.not_eq_true']
    exact ⟨⟨⟨h1, h2⟩, h3⟩, (contains_slash_iff n.data).mpr h4⟩

theorem segs_join_concat (rel n : String) (hnsl : ∀ c ∈ n.data, c ≠ '/') :
    segs (rel ++ "/" ++ n) = segs rel ++ [n] := by
  unfold segs
  have hdata : (rel ++ "/" ++ n).data = rel.data ++ '/' :: n.data := by
    simp [String.data_append]
  rw [hdata, splitChar_append, splitChar_no_sep '/' n.data hnsl]
  simp [List.asString]

/-- On the walker's actual argument domain — a `""` or normalized relative
accumulator on the left, a real basename on the right — Node's `path.join`
is plain concatenation with a separator. -/
theorem joinPath_clean (rel n : String)
    (hrel : rel = "" ∨ canonicalRel rel = true) (hn : cleanName n = true) :
    joinPath rel n = if rel = "" then n else rel ++ "/" ++ n := by
  obtain ⟨hn0, hnd, hndd, hnsl⟩ := (cleanName_iff n).1 hn
  have hsegn : segs n = [n] := segs_no_slash n hnsl
  have hcleann : ∀ s ∈ segs n, s ≠ "" ∧ s ≠ "." ∧ s ≠ ".." := by
    rw [hsegn]
    intro s hs
    simp only [List.mem_singleton] at hs
    subst hs
    exact ⟨hn0, hnd, hndd⟩
  rcases hrel with hrel | hrel
  · rw [if_pos hrel, hrel]
    show joinPath "" n = n
    unfold joinPath
    rw [if_pos rfl, if_neg hn0]
    exact normalizePath_clean n hn0 hcleann
  · obtain ⟨hrel0, hrelclean⟩ := (canonicalRel_iff rel).1 hrel
    rw [if_neg hrel0]
    unfold joinPath
    rw [if_neg hrel0, if_neg hn0]
    apply normalizePath_clean
    · apply string_ne_empty_of_data
      simp [String.data_append]
    · intro s hs
      rw [segs_join_concat rel n hnsl] at hs
      rcases List.mem_append.1 hs with hs | hs
      · exact hrelclean s hs
      · simp only [List.mem_singleton] at hs
        subst hs
        exact ⟨hn0, hnd, hndd⟩

/-- The walker's accumulator stays normalized as it grows. -/
theorem canonicalRel_joinPath (rel n : String)
    (hrel : rel = "" ∨ canonicalRel rel = true) (hn : cleanName n = true) :
    canonicalRel (joinPath rel n) = true := by
  obtain ⟨hn0, hnd, hndd, hnsl⟩ := (cleanName_iff n).1 hn
  rw [joinPath_clean rel n hrel hn]
  rcases hrel with hrel | hrel
  · rw [if_pos hrel]
    refine (canonicalRel_iff n).2 ⟨hn0, ?_⟩
    rw [segs_no_slash n hnsl]
    intro s hs
    simp only [List.mem_singleton] at hs
    subst hs
    exact ⟨hn0, hnd, hndd⟩
  · obtain ⟨hrel0, hrelclean⟩ := (canonicalRel_iff rel).1 hrel
    rw [if_neg hrel0]
    refine (canonicalRel_iff _).2 ⟨?_, ?_⟩
    · apply string_ne_empty_of_data
      simp [String.data_append]
    · intro s hs
      rw [segs_join_concat rel n hnsl] at hs
      rcases List.mem_append.1 hs with hs | hs
      · exact hrelclean s hs
      · simp only [List.mem_singleton] at hs
        subst hs
        exact ⟨hn0, hnd, hndd⟩

theorem segs_joinPath_clean (rel n : String)
    (hrel : rel = "" ∨ canonicalRel rel = true) (hn : cleanName n = true) :
    segs (joinPath rel n) = if rel = "" then [n] else segs rel ++ [n] := by
  obtain ⟨hn0, hnd, hndd, hnsl⟩ := (cleanName_iff n).1 hn
  rw [joinPath_clean rel n hrel hn]
  by_cases hrel0 : rel = ""
  · rw [if_pos hrel0, if_pos hrel0]
    exact segs_no_slash n hnsl
  · rw [if_neg hrel0, if_neg hrel0]
    exact segs_join_concat rel n hnsl

theorem segs_trailing_slash (er : String) : segs (er ++ "/") = segs er ++ [""] := by
  unfold segs
  have hdata : (er ++ "/").data = er.data ++ '/' :: [] := by simp [String.data_append]
  rw [hdata, splitChar_append]
  simp [splitChar, List.asString]

/-! ## C4 — pruning with a slash-free ignore pattern -/

/-- The pruning invariant behind C4: under a slash-free ignore pattern `X`, no
path produced by the walk (from a well-named tree, starting at a relative
accumulator none of whose segments is `X`) has any segment matching `X`,
because an entry whose basename is `X` is skipped before recursion. -/
theorem walkList_segments_avoid (X : String) (hX : X ≠ "")
    (hsl : ∀ c ∈ X.data, c ≠ '/') (r : Bool) :
    ∀ (N : Nat) (es : List FSTree) (rel : String), sizeOf es < N →
      namesOk es = true →
      (rel = "" ∨ (canonicalRel rel = true ∧ ∀ s ∈ segs rel, s ≠ X)) →
      ∀ e ∈ walkList r [X] es rel, ∀ s ∈ segs e, s ≠ X := by
  intro N
  induction N with
  | zero => intro es rel h; omega
  | succ N ih =>
    intro es rel hsz hnames hinv e he s hs
    have hrelor : rel = "" ∨ canonicalRel rel = true := hinv.imp id And.left
    cases es with
    | nil => simp [walkList] at he
    | cons hd tl =>
      have hsztl : sizeOf tl < N := by
        have := List.cons.sizeOf_spec hd tl
        have hpos : 0 < sizeOf hd := by cases hd <;> simp
        omega
      rw [walkList_cons] at he
      rcases List.mem_append.1 he with h1 | h2
      · -- the head entry contributed `e`
        cases hd with
        | file n =>
          simp only [namesOk, Bool.and_eq_true] at hnames
          have hcn : cleanName n = true := hnames.1
          have hn : ∀ c ∈ n.data, c ≠ '/' := ((cleanName_iff n).1 hcn).2.2.2
          by_cases hm : matchesPattern (joinPath rel n) n [X]
          · simp [walkOne, hm] at h1
          · simp only [walkOne, if_neg hm, List.mem_singleton] at h1
            subst h1
            have hnX : n ≠ X := fun hEq => hm (by rw [hEq]; exact matchesPattern_self _ X hsl)
            rw [segs_joinPath_clean rel n hrelor hcn] at hs
            by_cases hrel : rel = ""
            · rw [if_pos hrel] at hs
              simp only [List.mem_singleton] at hs
              subst hs; exact hnX
            · rw [if_neg hrel] at hs
              rcases List.mem_append.1 hs with hs1 | hs2
              · exact (hinv.resolve_left hrel).2 s hs1
              · simp only [List.mem_singleton] at hs2
                subst hs2; exact hnX
        | dir n subs =>
          simp only [namesOk, Bool.and_eq_true] at hnames
          have hcn : cleanName n = true := hnames.1.1
          have hn : ∀ c ∈ n.data, c ≠ '/' := ((cleanName_iff n).1 hcn).2.2.2
          by_cases hm : matchesPattern (joinPath rel n) n [X]
          · simp [walkOne, hm] at h1
          · have hnX : n ≠ X := fun hEq => hm (by rw [hEq]; exact matchesPattern_self _ X hsl)
            have hsegsX : ∀ t ∈ segs (joinPath rel n), t ≠ X := by
              rw [segs_joinPath_clean rel n hrelor hcn]
              by_cases hrel : rel = ""
              · rw [if_pos hrel]
                intro t ht
                simp only [List.mem_singleton] at ht
                subst ht; exact hnX
              · rw [if_neg hrel]
                intro t ht
                rcases List.mem_append.1 ht with u | v
                · exact (hinv.resolve_left hrel).2 t u
                · simp only [List.mem_singleton] at v
                  subst v; exact hnX
            have hinv' : joinPath rel n = ""
                ∨ (canonicalRel (joinPath rel n) = true
                    ∧ ∀ t ∈ segs (joinPath rel n), t ≠ X) :=
              Or.inr ⟨canonicalRel_joinPath rel n hrelor hcn, hsegsX⟩
            cases r with
            | true =>
              simp only [walkOne, if_neg hm, if_pos rfl] at h1
              have hszsubs : sizeOf subs < N := by
                have h1' := List.cons.sizeOf_spec (FSTree.dir n subs) tl
                have h2' : sizeOf (FSTree.dir n subs) = 1 + sizeOf n + sizeOf subs := by simp
                omega
              exact ih subs (joinPath rel n) hszsubs hnames.1.2 hinv' e h1 s hs
            | false =>
              simp only [walkOne, if_neg hm, Bool.false_eq_true, if_false,
                List.mem_singleton] at h1
              subst h1
              rw [segs_trailing_slash] at hs
              rcases List.mem_append.1 hs with hs1 | hs2
              · exact hsegsX s hs1
              · simp only [List.mem_singleton] at hs2
                subst hs2
                exact fun hc => hX hc.symm
      · have hnamestl : namesOk tl = true := by
          cases hd <;> simp only [namesOk, Bool.and_eq_true] at hnames
          · exact hnames.2
          · exact hnames.2
        exact ih tl rel hsztl hnamestl hinv e h2 s hs

/-- C4: with a slash-free, non-empty ignore pattern `X`, no path returned by
the walk of a well-named tree (listing the workspace root) contains a segment
equal to `X`, at any depth — matched entries are pruned before recursion. -/
theorem c4_slash_free_pattern_prunes_at_any_depth (X : String) (r : Bool) (es : List FSTree)
    (hX : X ≠ "") (hslash : X.data.contains '/' = false) (hwf : namesOk es = true) :
    ∀ e ∈ walkList r [X] es "", ∀ s ∈ segs e, s ≠ X := by
  intro e he s hs
  exact walkList_segments_avoid X hX ((contains_slash_iff X.data).mp hslash) r
    (sizeOf es + 1) es "" (by omega) hwf (Or.inl rfl) e he s hs

/-- Witness for `c4_slash_free_pattern_prunes_at_any_depth` on the test
suite's tree: ignoring `nested_modules` keeps `src/index.ts`, whose segments
indeed avoid the pattern. -/
theorem c4_slash_free_pattern_prunes_witness :
    ("src/index.ts" ∈
      walkList true ["nested_modules"]
        [.dir "src" [.file "index.ts", .dir "nested_modules" [.file "nested.js"]]] "")
    ∧ ∀ s ∈ segs "src/index.ts", s ≠ "nested_modules" := by
  constructor
  · simp +decide [walkList]
  · intro s hs
    exact c4_slash_free_pattern_prunes_at_any_depth "nested_modules" true
      [.dir "src" [.file "index.ts", .dir "nested_modules" [.file "nested.js"]]]
      (by decide) (by decide) (by simp +decide [namesOk]) "src/index.ts"
      (by simp +decide [walkList]) s hs

/-! ## C10 — entries extend the seeded relative path -/

theorem jsStartsWith_append (p s : String) : jsStartsWith (p ++ s) p = true := by
  simp [jsStartsWith, String.data_append]

theorem jsStartsWith_trans_append {rel p : String} (h : jsStartsWith rel p = true)
    (s : String) : jsStartsWith (rel ++ s) p = true := by
  simp only [jsStartsWith, String.data_append, List.isPrefixOf_iff_prefix] at h ⊢
  exact h.trans (List.prefix_append rel.data s.data)

theorem ne_empty_of_jsStartsWith {rel p : String} (hp : p ≠ "")
    (h : jsStartsWith rel p = true) : rel ≠ "" := by
  intro hrel
  subst hrel
  simp only [jsStartsWith, List.isPrefixOf_iff_prefix] at h
  have : p.data = [] := by simpa using h
  exact hp (by cases p; simp_all)

/-- The seeding invariant behind C10: from a relative accumulator that is the
normalized seed `p` or a normalized path extending `p ++ "/"`, every walk
result over a well-named tree extends `p ++ "/"` (Node `path.join` being
plain concatenation on this domain). -/
theorem walkList_seed_extends (p : String) (hpcanon : canonicalRel p = true)
    (r : Bool) (ign : List String) :
    ∀ (N : Nat) (es : List FSTree) (rel : String), sizeOf es < N →
      namesOk es = true →
      (rel = p ∨ (canonicalRel rel = true ∧ jsStartsWith rel (p ++ "/") = true)) →
      ∀ e ∈ walkList r ign es rel, jsStartsWith e (p ++ "/") = true := by
  have hp : p ≠ "" := ((canonicalRel_iff p).1 hpcanon).1
  intro N
  induction N with
  | zero => intro es rel h; omega
  | succ N ih =>
    intro es rel hsz hnames hinv e he
    have hrelc : canonicalRel rel = true := by
      rcases hinv with hq | hq
      · rw [hq]; exact hpcanon
      · exact hq.1
    have hrelne : rel ≠ "" := ((canonicalRel_iff rel).1 hrelc).1
    cases es with
    | nil => simp [walkList] at he
    | cons hd tl =>
      have hsztl : sizeOf tl < N := by
        have := List.cons.sizeOf_spec hd tl
        have hpos : 0 < sizeOf hd := by cases hd <;> simp
        omega
      have hjoin : ∀ n : String, cleanName n = true →
          jsStartsWith (joinPath rel n) (p ++ "/") = true := by
        intro n hcn
        rw [joinPath_clean rel n (Or.inr hrelc) hcn, if_neg hrelne]
        rcases hinv with hq | hq
        · rw [hq]
          exact jsStartsWith_append (p ++ "/") n
        · exact jsStartsWith_trans_append (jsStartsWith_trans_append hq.2 "/") n
      rw [walkList_cons] at he
      rcases List.mem_append.1 he with h1 | h2
      · cases hd with
        | file n =>
          simp only [namesOk, Bool.and_eq_true] at hnames
          by_cases hm : matchesPattern (joinPath rel n) n ign
          · simp [walkOne, hm] at h1
          · simp only [walkOne, if_neg hm, List.mem_singleton] at h1
            subst h1
            exact hjoin n hnames.1
        | dir n subs =>
          simp only [namesOk, Bool.and_eq_true] at hnames
          have hcn : cleanName n = true := hnames.1.1
          by_cases hm : matchesPattern (joinPath rel n) n ign
          · simp [walkOne, hm] at h1
          · cases r with
            | true =>
              simp only [walkOne, if_neg hm, if_pos rfl] at h1
              have hszsubs : sizeOf subs < N := by
                have h1' := List.cons.sizeOf_spec (FSTree.dir n subs) tl
                have h2' : sizeOf (FSTree.dir n subs) = 1 + sizeOf n + sizeOf subs := by simp
                omega
              exact ih subs (joinPath rel n) hszsubs hnames.1.2
                (Or.inr ⟨canonicalRel_joinPath rel n (Or.inr hrelc) hcn, hjoin n hcn⟩) e h1
            | false =>
              simp only [walkOne, if_neg hm, Bool.false_eq_true, if_false,
                List.mem_singleton] at h1
              subst h1
              exact jsStartsWith_trans_append (hjoin n hcn) "/"
      · exact ih tl rel hsztl (by
          cases hd <;> simp only [namesOk, Bool.and_eq_true] at hnames
          · exact hnames.2
          · exact hnames.2) hinv e h2

/-- C10 counterexample: the claim quantifies over every path argument other
than `"."`, but for the non-normalized argument `"src/"` — which the guard
accepts — Node's `path.join` normalizes away the doubled separator, so the
returned entry `"src/f"` does not begin with `"src/"` followed by a
separator. -/
theorem c10_counterexample :
    insideRootGuard "/ws" "src/" = true
    ∧ walkList true [".git"] [.file "f"] (if "src/" = "." then "" else "src/") = ["src/f"]
    ∧ jsStartsWith "src/f" ("src/" ++ "/") = false := by
  refine ⟨by decide, ?_, by decide⟩
  simp +decide [walkList, joinPath, normalizePath, normStep, joinSegs, segs]

/-- C10 (amended): for a normalized relative path argument `p` (no empty,
`.` or `..` segments) other than `"."`, the walk is seeded with `p` itself
(and with `""` for `"."`), so every entry returned for a well-named tree is a
workspace-root-relative path beginning with `p` followed by the separator —
and ignore patterns are therefore matched against root-relative paths.  For a
non-normalized argument, `path.join` normalization makes entries extend the
normalized form of `p` instead. -/
theorem c10_entries_extend_the_seed (r : Bool) (ign : List String) (es : List FSTree)
    (p : String) (hp : p ≠ ".") (hcanon : canonicalRel p = true)
    (hwf : namesOk es = true) :
    ∀ e ∈ walkList r ign es (if p = "." then "" else p),
      jsStartsWith e (p ++ "/") = true := by
  rw [if_neg hp]
  intro e he
  exact walkList_seed_extends p hcanon r ign (sizeOf es + 1) es p (by omega) hwf
    (Or.inl rfl) e he

/-- Witness for `c10_entries_extend_the_seed`: listing `src` yields `src/a`,
which starts with `src/`. -/
theorem c10_entries_extend_the_seed_witness :
    ("src/a" ∈ walkList true [".git"] [.file "a"] (if "src" = "." then "" else "src"))
    ∧ jsStartsWith "src/a" ("src" ++ "/") = true := by
  refine ⟨by simp +decide [walkList], ?_⟩
  exact c10_entries_extend_the_seed true [".git"] [.file "a"] "src" (by decide) (by decide)
    (by simp +decide [namesOk, cleanName]) "src/a" (by simp +decide [walkList])

/-! ## C8 — determinism across filesystem enumeration orders -/

theorem canonTree_dir (n : String) (es : List FSTree) :
    canonTree (.dir n es) = .dir n (canonList es) := by
  simp only [canonTree, canonList]
  rw [List.attach_map_val es canonTree]

/-- Permuting a directory enumeration (and its subdirectories, recursively)
permutes the unsorted walk result. -/
theorem walkList_canon_perm (r : Bool) (ign : List String) :
    ∀ (N : Nat) (es : List FSTree), sizeOf es < N → ∀ rel,
      walkList r ign (canonList es) rel ~ walkList r ign es rel := by
  intro N
  induction N with
  | zero => intro es h; omega
  | succ N ih =>
    intro es hsz rel
    rw [walkList_eq_flatMap, walkList_eq_flatMap]
    have perm1 : canonList es ~ es.map canonTree := List.perm_insertionSort nameLE _
    refine (perm1.flatMap_right (walkOne r ign rel)).trans ?_
    rw [List.flatMap_map]
    refine List.Perm.flatMap_left es ?_
    intro a ha
    cases a with
    | file n => simp [canonTree]
    | dir n subs =>
      rw [canonTree_dir]
      simp only [walkOne]
      by_cases hm : matchesPattern (joinPath rel n) n ign
      · simp [hm]
      · simp only [if_neg hm]
        cases r with
        | false => simp
        | true =>
          simp only [if_pos rfl]
          have hszsubs : sizeOf subs < N := by
            have h1 := List.sizeOf_lt_of_mem ha
            have h2 : sizeOf (FSTree.dir n subs) = 1 + sizeOf n + sizeOf subs := by simp
            omega
          exact ih subs hszsubs (joinPath rel n)

/-- C8: the sorted, truncated `list_files` output is independent of the
filesystem enumeration order — two enumerations of the same directory
contents (equal canonical forms, i.e. equal entry sets at every level)
produce identical output. -/
theorem c8_listing_independent_of_enumeration_order (r : Bool) (ign : List String)
    (rel : String) (es₁ es₂ : List FSTree) (h : canonList es₁ = canonList es₂) :
    renderListOutput (sortStrings (walkList r ign es₁ rel))
      = renderListOutput (sortStrings (walkList r ign es₂ rel)) := by
  have p1 := walkList_canon_perm r ign (sizeOf es₁ + 1) es₁ (by omega) rel
  have p2 := walkList_canon_perm r ign (sizeOf es₂ + 1) es₂ (by omega) rel
  have hperm : walkList r ign es₁ rel ~ walkList r ign es₂ rel := by
    calc walkList r ign es₁ rel ~ walkList r ign (canonList es₁) rel := p1.symm
      _ = walkList r ign (canonList es₂) rel := by rw [h]
      _ ~ walkList r ign es₂ rel := p2
  have hs1 : List.Sorted (· ≤ ·) (sortStrings (walkList r ign es₁ rel)) :=
    List.sorted_insertionSort _ _
  have hs2 : List.Sorted (· ≤ ·) (sortStrings (walkList r ign es₂ rel)) :=
    List.sorted_insertionSort _ _
  have hp2 : sortStrings (walkList r ign es₁ rel) ~ sortStrings (walkList r ign es₂ rel) :=
    (List.perm_insertionSort _ _).trans (hperm.trans (List.perm_insertionSort _ _).symm)
  rw [List.eq_of_perm_of_sorted hp2 hs1 hs2]

/-- Witness for `c8_listing_independent_of_enumeration_order`: two opposite
enumeration orders of the same two files produce identical output. -/
theorem c8_listing_independent_witness :
    renderListOutput (sortStrings (walkList true [".git"] [.file "b", .file "a"] ""))
      = renderListOutput (sortStrings (walkList true [".git"] [.file "a", .file "b"] "")) := by
  exact c8_listing_independent_of_enumeration_order true [".git"] ""
    [.file "b", .file "a"] [.file "a", .file "b"]
    (by simp +decide [canonList, canonTree, List.insertionSort, List.orderedInsert,
      nameLE, FSTree.name])

/-! ## C5 — exit-code classification of the search process -/

/-- C5: once the guard has passed, `search` classifies the process outcome by
exit code.  Exit 1 yields the literal success text `"No matches found."`
without an error; exit 2 raises a caller-input error whose message contains
the captured stderr; any other failing termination is propagated unchanged. -/
theorem c5_exit_code_classification (exec : ExecCall → ExecResult) (root pattern : String)
    (path? : Option String) (include? exclude? : Option (List String))
    (caseSensitive? : Option JsVal)
    (hguard : insideRootGuard root (path?.getD ".") = true) :
    (∀ stderr message,
      exec (grepCall root pattern path? include? exclude? caseSensitive?)
          = .err (some 1) stderr message →
      searchExecute exec root pattern path? include? exclude? caseSensitive?
        = .ok "No matches found.")
    ∧ (∀ stderr message,
      exec (grepCall root pattern path? include? exclude? caseSensitive?)
          = .err (some 2) stderr message →
      searchExecute exec root pattern path? include? exclude? caseSensitive?
          = .error (.toolInput ("Grep error: " ++ (if stderr != "" then stderr else message)))
        ∧ ∃ pre post : List Char,
            ("Grep error: " ++ (if stderr != "" then stderr else message)).data
              = pre ++ stderr.data ++ post)
    ∧ (∀ code stderr message,
      exec (grepCall root pattern path? include? exclude? caseSensitive?)
          = .err code stderr message →
      code ≠ some 1 → code ≠ some 2 →
      searchExecute exec root pattern path? include? exclude? caseSensitive?
        = .error (.execFail code stderr message)) := by
  refine ⟨fun stderr message h => ?_, fun stderr message h => ⟨?_, ?_⟩,
    fun code stderr message h h1 h2 => ?_⟩
  · simp only [grepCall] at h
    simp [searchExecute, hguard, h]
  · simp only [grepCall] at h
    simp [searchExecute, hguard, h]
  · by_cases hst : stderr = ""
    · subst hst
      exact ⟨"Grep error: ".data ++ message.data, [], by simp [String.data_append]⟩
    · rw [if_pos (by simpa using hst)]
      exact ⟨"Grep error: ".data, [], by simp [String.data_append]⟩
  · simp only [grepCall] at h
    simp [searchExecute, hguard, h, h1, h2]

/-- Witness for `c5_exit_code_classification`: a concrete exit-2 outcome with
stderr `"bad regex"` surfaces as a `ToolInputError` carrying that text, and a
concrete exit-1 outcome yields `"No matches found."`. -/
theorem c5_exit_code_classification_witness :
    searchExecute (fun _ => .err (some 2) "bad regex" "m") "/ws" "p" none none none none
        = .error (.toolInput "Grep error: bad regex")
    ∧ searchExecute (fun _ => .err (some 1) "" "") "/ws" "p" none none none none
        = .ok "No matches found." := by
  constructor
  · exact ((c5_exit_code_classification (fun _ => .err (some 2) "bad regex" "m")
      "/ws" "p" none none none none (by decide)).2.1 "bad regex" "m" rfl).1
  · exact (c5_exit_code_classification (fun _ => .err (some 1) "" "")
      "/ws" "p" none none none none (by decide)).1 "" "" rfl

/-! ## C6 — output truncation -/

/-- C6: above the ceiling (1000 listing entries, 500 search lines) the
returned text is exactly the first `ceiling` items joined, followed by a note
stating the omitted count, and `ceiling + omitted = total`; at or under the
ceiling the (non-empty) result is returned in full with no note. -/
theorem c6_output_truncation (files : List String) (stdout : String) :
    (1000 < files.length →
      renderListOutput files
          = String.intercalate "\n" (files.take 1000) ++ "\n\n... and "
              ++ toString (files.length - 1000) ++ " more files."
        ∧ 1000 + (files.length - 1000) = files.length)
    ∧ (files.length ≤ 1000 → String.intercalate "\n" files ≠ "" →
      renderListOutput files = String.intercalate "\n" files)
    ∧ (500 < (searchLines stdout).length →
      renderSearchOutput stdout
          = String.intercalate "\n" ((searchLines stdout).take 500) ++ "\n\n... and "
              ++ toString ((searchLines stdout).length - 500) ++ " more matches."
        ∧ 500 + ((searchLines stdout).length - 500) = (searchLines stdout).length)
    ∧ ((searchLines stdout).length ≤ 500 →
      String.intercalate "\n" (searchLines stdout) ≠ "" →
      renderSearchOutput stdout = String.intercalate "\n" (searchLines stdout)) := by
  refine ⟨fun h => ⟨?_, by omega⟩, fun h1 h2 => ?_, fun h => ⟨?_, by omega⟩, fun h1 h2 => ?_⟩
  · simp only [renderListOutput]
    rw [if_pos h]
  · simp only [renderListOutput]
    rw [if_neg (by omega), if_neg h2]
  · simp only [renderSearchOutput]
    rw [if_pos h]
  · simp only [renderSearchOutput]
    rw [if_neg (by omega), if_neg h2]

/-- Witness for `c6_output_truncation`: two-entry listings and a one-line
search result are returned in full. -/
theorem c6_output_truncation_witness :
    renderListOutput ["a", "b"] = "a\nb"
    ∧ renderSearchOutput "m:1:x\n" = "m:1:x" := by
  constructor
  · have h := (c6_output_truncation ["a", "b"] "").2.1 (by decide) (by decide)
    exact h
  · have h := (c6_output_truncation [] "m:1:x\n").2.2.2 (by decide) (by decide)
    exact h

/-! ## C7 — the case-insensitivity flag -/

/-- C7: unless `caseSensitive` is strictly the boolean `true` (it may be
absent, `false`, or a non-boolean), the argument vector contains `-i`; when it
is strictly `true`, `-i` does not occur (among the flags nor as any of the
caller-supplied strings, none of which is `-i`). -/
theorem c7_case_insensitivity_flag (caseSensitive? : Option JsVal) (pattern rel : String)
    (include? : Option (List String)) (exclude : List String) :
    (caseSensitive? ≠ some (.bool true) →
      "-i" ∈ buildGrepArgs pattern rel include? exclude (jsStrictTrue caseSensitive?))
    ∧ (caseSensitive? = some (.bool true) →
      pattern ≠ "-i" → rel ≠ "-i" →
      (∀ i ∈ include?.getD [], i ≠ "-i") → (∀ e ∈ exclude, e ≠ "-i") →
      "-i" ∉ buildGrepArgs pattern rel include? exclude (jsStrictTrue caseSensitive?)) := by
  constructor
  · intro h
    have hj : jsStrictTrue caseSensitive? = false := by
      cases caseSensitive? with
      | none => rfl
      | some v =>
        cases v with
        | bool b =>
          cases b with
          | false => rfl
          | true => exact absurd rfl h
        | str s => rfl
        | num n => rfl
        | null => rfl
    rw [hj]
    simp [buildGrepArgs]
  · intro h hpat hrel hinc hexc hmem
    rw [h] at hmem
    simp [buildGrepArgs, jsStrictTrue] at hmem
    rcases hmem with h1 | h2 | h3 | h4
    · rcases include? with _ | inc
      · simp at h1
      · simp at h1
        exact hinc _ (by simpa using h1.2) rfl
    · exact hexc _ h2.2 rfl
    · exact hpat h3.symm
    · exact hrel h4.symm

/-- Witness for `c7_case_insensitivity_flag`: with `caseSensitive` absent the
vector contains `-i`; with `caseSensitive === true` it does not. -/
theorem c7_case_insensitivity_flag_witness :
    "-i" ∈ buildGrepArgs "foo" "." none defaultIgnore (jsStrictTrue none)
    ∧ "-i" ∉ buildGrepArgs "foo" "." none defaultIgnore (jsStrictTrue (some (.bool true))) := by
  constructor
  · exact (c7_case_insensitivity_flag none "foo" "." none defaultIgnore).1 (by decide)
  · exact (c7_case_insensitivity_flag (some (.bool true)) "foo" "." none defaultIgnore).2
      rfl (by decide) (by decide) (by simp) (by decide)

/-! ## C9 — the pattern as a dedicated argument -/

/-- C9: the argument vector always decomposes as a pattern-independent flag
portion followed by `["-e", pattern, path]` — the pattern occupies exactly the
value slot of the dedicated `-e` flag, for every pattern including
`-`-prefixed ones; and `search` consults the process only through this single
argument-vector invocation (no shell string), so two process behaviours that
agree on it produce identical results. -/
theorem c9_pattern_as_dedicated_argument (pattern rel : String)
    (include? : Option (List String)) (exclude : List String) (caseSensitive : Bool) :
    buildGrepArgs pattern rel include? exclude caseSensitive
        = grepArgsBase include? exclude caseSensitive ++ ["-e", pattern, rel]
    ∧ ∀ (exec₁ exec₂ : ExecCall → ExecResult) (root : String) (path? : Option String)
        (exclude? : Option (List String)) (caseSensitive? : Option JsVal),
        exec₁ (grepCall root pattern path? include? exclude? caseSensitive?)
            = exec₂ (grepCall root pattern path? include? exclude? caseSensitive?) →
        searchExecute exec₁ root pattern path? include? exclude? caseSensitive?
          = searchExecute exec₂ root pattern path? include? exclude? caseSensitive? := by
  constructor
  · simp [buildGrepArgs, grepArgsBase, List.append_assoc]
  · intro exec₁ exec₂ root path? exclude? caseSensitive? h
    simp only [grepCall] at h
    simp only [searchExecute]
    rw [h]

/-- Witness for `c9_pattern_as_dedicated_argument` at the `-`-prefixed pattern
`"-v"` (the injection-attempt pattern of the test suite). -/
theorem c9_pattern_as_dedicated_argument_witness :
    buildGrepArgs "-v" "." none defaultIgnore false
        = grepArgsBase none defaultIgnore false ++ ["-e", "-v", "."]
    ∧ searchExecute (fun _ => .ok "hit") "/ws" "-v" none none none none
        = searchExecute (fun c => if c.cmd = "grep" then .ok "hit" else .err none "" "")
            "/ws" "-v" none none none none := by
  have h := c9_pattern_as_dedicated_argument "-v" "." none defaultIgnore false
  exact ⟨h.1, h.2 _ _ "/ws" none none none (by rfl)⟩

end SearchTools
